import Mathlib

/-!
Verification of the Fortunev2 trading bot against its specification.

This file gives a shallow embedding, over exact rational arithmetic, of the
components of the repository that the checked claims talk about:

* `RiskManager` position sizing (`src/utils/risk_management.py`),
* the signal aggregator (`src/strategies/strategy_manager.py`),
* the indicator calculator (`src/strategies/base_strategy.py`),
* the backtest engine (`src/utils/backtest.py`),
* the paper-trading portfolio (`src/utils/portfolio.py`).

Python floats are modelled as `ℚ`; a float column that can hold NaN (the
pandas "not yet available" sentinel) is modelled as `Option ℚ` with `none`
for NaN.  Python dicts keyed by symbol are modelled as insertion-ordered
association lists `List (String × α)`; lookup, update and delete touch the
first occurrence of a key, which coincides with dict behaviour because a
dict never holds a duplicated key.
-/

namespace Fortune

/-- One OHLCV bar (`Bar` in the spec); the index timestamp of the pandas row
is modelled as a `Nat`. -/
structure Bar where
  timestamp : Nat
  op : ℚ
  high : ℚ
  low : ℚ
  close : ℚ
  volume : ℚ
  deriving DecidableEq

/-- A trading signal as consumed by the aggregator, the risk filter and the
backtest engine: only the fields those components read are carried. -/
structure Signal where
  strategy : String
  symbol : String
  side : String
  confidence : ℚ
  deriving DecidableEq

/-- Mean of a list of rationals (`np.mean`); the empty list gives `0/0 = 0`
in `ℚ` where NumPy gives NaN — every use below is guarded by a
non-emptiness test exactly as in the source. -/
def listMean (l : List ℚ) : ℚ :=
  l.sum / (l.length : ℚ)

/-- First-occurrence lookup in an insertion-ordered association list
(Python `d[k]` / `k in d`). -/
def lookupA {α : Type} (k : String) : List (String × α) → Option α
  | [] => none
  | (k2, v) :: t => if k2 = k then some v else lookupA k t

/-- Replace the value at the first occurrence of a key, keeping its place
(Python `d[k] = v` / `d[k].update(...)` on an existing key). -/
def updateFirst {α : Type} (k : String) (v : α) : List (String × α) → List (String × α)
  | [] => []
  | (k2, v2) :: t => if k2 = k then (k2, v) :: t else (k2, v2) :: updateFirst k v t

/-- Remove the first occurrence of a key (Python `del d[k]`). -/
def eraseFirst {α : Type} (k : String) : List (String × α) → List (String × α)
  | [] => []
  | (k2, v2) :: t => if k2 = k then t else (k2, v2) :: eraseFirst k t

/-! ### Risk management (`src/utils/risk_management.py`) -/

/-- An entry of `RiskManager.trade_history`: the fields
`_get_strategy_stats` reads. -/
structure StratTrade where
  strategy : String
  profit : ℚ
  deriving DecidableEq

/-- `RiskManager._get_strategy_stats`: win rate, average win and average
(absolute) loss of the given strategy's recorded trades, with the default
triple `(0.5, 1, 1)` when that strategy has no recorded trades. -/
def get_strategy_stats (trade_history : List StratTrade) (strategy_name : String) :
    ℚ × ℚ × ℚ :=
  let strategy_trades := trade_history.filter (fun t => t.strategy = strategy_name)
  match strategy_trades with
  | [] => (1/2, 1, 1)
  | _ =>
    let wins := strategy_trades.filter (fun t => 0 < t.profit)
    let losses := strategy_trades.filter (fun t => t.profit < 0)
    let win_rate := (wins.length : ℚ) / (strategy_trades.length : ℚ)
    let avg_win := if wins = [] then 1 else listMean (wins.map (fun t => t.profit))
    let avg_loss := if losses = [] then 1 else |listMean (losses.map (fun t => t.profit))|
    (win_rate, avg_win, avg_loss)

/-- `RiskManager._percentage_position_size`: balance times the configured
risk per trade (`config.get('default_risk_per_trade', 0.02)`); the resolved
configuration value is passed in as `risk_per_trade`. -/
def percentage_position_size (risk_per_trade : ℚ) (account_balance : ℚ) : ℚ :=
  account_balance * risk_per_trade

/-- `RiskManager._kelly_position_size`: Kelly fraction from the strategy's
recorded statistics, clamped to `[0, 0.25]`, with a fallback to percentage
sizing when the computed win rate or average loss is zero. -/
def kelly_position_size (trade_history : List StratTrade) (risk_per_trade : ℚ)
    (strategy_name : String) (account_balance : ℚ) : ℚ :=
  let stats := get_strategy_stats trade_history strategy_name
  let win_rate := stats.1
  let avg_win := stats.2.1
  let avg_loss := stats.2.2
  if win_rate = 0 ∨ avg_loss = 0 then
    percentage_position_size risk_per_trade account_balance
  else
    let b := avg_win / avg_loss
    let p := win_rate
    let q := 1 - win_rate
    let kelly_fraction := (b * p - q) / b
    account_balance * max 0 (min (1/4) kelly_fraction)

/-! ### Backtest engine (`src/utils/backtest.py`) -/

/-- An open position of the backtest ledger (`BacktestEngine.positions`
values). -/
structure Position where
  quantity : ℚ
  avg_price : ℚ
  entry_time : Nat
  deriving DecidableEq

/-- A trade record appended by `BacktestEngine._execute_backtest_trade`. -/
structure Trade where
  timestamp : Nat
  symbol : String
  side : String
  quantity : ℚ
  price : ℚ
  profit : ℚ
  strategy : String
  deriving DecidableEq

/-- A point of the backtest equity curve (the dict appended by
`BacktestEngine.run_backtest`; its `capital` key is the spec's `cash`). -/
structure EquityPoint where
  timestamp : Nat
  equity : ℚ
  capital : ℚ
  deriving DecidableEq

/-- The mutable aggregate of `BacktestEngine`: cash, open positions and the
append-only trade list. -/
structure BState where
  capital : ℚ
  positions : List (String × Position)
  trades : List Trade
  deriving DecidableEq

/-- `BacktestEngine._execute_backtest_trade`: simulate a fill of the signal
at the bar's closing price.  The engine sizes every trade at 2% of current
cash; a buy is a no-op when its cost exceeds cash, a sell is a no-op when
no position is open on the symbol; a sell appends one trade record and
deletes the position when the remaining quantity is at most `0.001`. -/
def execute_backtest_trade (signal : Signal) (current_bar : Bar) (s : BState) : BState :=
  let current_price := current_bar.close
  let position_size := s.capital * (2/100) / current_price
  if signal.side = "buy" then
    let cost := position_size * current_price
    if cost ≤ s.capital then
      match lookupA signal.symbol s.positions with
      | some pos =>
        let new_qty := pos.quantity + position_size
        let new_avg_price :=
          (pos.quantity * pos.avg_price + position_size * current_price) / new_qty
        { s with
            capital := s.capital - cost,
            positions := updateFirst signal.symbol
              { pos with quantity := new_qty, avg_price := new_avg_price } s.positions }
      | none =>
        { s with
            capital := s.capital - cost,
            positions := s.positions ++
              [(signal.symbol,
                { quantity := position_size, avg_price := current_price,
                  entry_time := current_bar.timestamp })] }
    else s
  else if signal.side = "sell" then
    match lookupA signal.symbol s.positions with
    | none => s
    | some pos =>
      let sell_quantity := min position_size pos.quantity
      let proceeds := sell_quantity * current_price
      let profit := (current_price - pos.avg_price) * sell_quantity
      let remaining := pos.quantity - sell_quantity
      { capital := s.capital + proceeds,
        positions :=
          if remaining ≤ 1/1000 then eraseFirst signal.symbol s.positions
          else updateFirst signal.symbol { pos with quantity := remaining } s.positions,
        trades := s.trades ++
          [{ timestamp := current_bar.timestamp, symbol := signal.symbol, side := "sell",
             quantity := sell_quantity, price := current_price, profit := profit,
             strategy := signal.strategy }] }
  else s

/-- Mark-to-market value of the open positions at a closing price (the loop
body of `BacktestEngine._calculate_current_equity`, which prices every
position at the current bar's close). -/
def positionsValue (positions : List (String × Position)) (close : ℚ) : ℚ :=
  (positions.map (fun kp => kp.2.quantity * close)).sum

/-- `BacktestEngine._calculate_current_equity`: cash plus the mark-to-market
value of the open positions at the current bar's close. -/
def calculate_current_equity (s : BState) (current_bar : Bar) : ℚ :=
  s.capital + positionsValue s.positions current_bar.close

/-- The all-zero bar, used as the (unreachable) default of `getLastD` on a
non-empty history prefix. -/
def defaultBar : Bar :=
  { timestamp := 0, op := 0, high := 0, low := 0, close := 0, volume := 0 }

/-- One iteration of the bar loop of `BacktestEngine.run_backtest` at index
`i`: take the history prefix through bar `i`, skip entirely when it is
shorter than 50 bars (`continue`), otherwise execute the cycle's signals at
the bar's close and append one equity point.  The strategy, aggregator and
risk chain invoked on the prefix is abstracted as `sigFn`. -/
def backtestStep (sigFn : List Bar → List Signal) (bars : List Bar)
    (acc : BState × List EquityPoint) (i : Nat) : BState × List EquityPoint :=
  let current_data := bars.take (i + 1)
  if current_data.length < 50 then acc
  else
    let current_bar := current_data.getLastD defaultBar
    let s := (sigFn current_data).foldl
      (fun st sg => execute_backtest_trade sg current_bar st) acc.1
    (s, acc.2 ++
      [{ timestamp := current_bar.timestamp,
         equity := calculate_current_equity s current_bar,
         capital := s.capital }])

/-- The initial ledger of a backtest run with the given starting capital. -/
def initialBState (initial_capital : ℚ) : BState :=
  { capital := initial_capital, positions := [], trades := [] }

/-- The bar loop of `BacktestEngine.run_backtest` over the filtered data
(the per-bar simulation; metric computation is `calculate_performance_metrics`
below).  Returns the final ledger and the recorded equity curve. -/
def run_backtest (sigFn : List Bar → List Signal) (bars : List Bar)
    (initial_capital : ℚ) : BState × List EquityPoint :=
  (List.range bars.length).foldl (backtestStep sigFn bars)
    (initialBState initial_capital, [])

/-- The ledger state after the first `k` iterations of the bar loop. -/
def backtestStateAfter (sigFn : List Bar → List Signal) (bars : List Bar)
    (initial_capital : ℚ) (k : Nat) : BState :=
  ((List.range k).foldl (backtestStep sigFn bars)
    (initialBState initial_capital, [])).1

/-- The equity point the loop records for (non-skipped) bar index `i`:
built from the ledger immediately after the fills of that bar, with
`equity = cash + Σ quantity × close` at that bar's close. -/
def equityPointAt (sigFn : List Bar → List Signal) (bars : List Bar)
    (initial_capital : ℚ) (i : Nat) : EquityPoint :=
  let current_bar := (bars.take (i + 1)).getLastD defaultBar
  let s := backtestStateAfter sigFn bars initial_capital (i + 1)
  { timestamp := current_bar.timestamp,
    equity := calculate_current_equity s current_bar,
    capital := s.capital }

/-! ### Performance metrics (`BacktestEngine._calculate_performance_metrics`) -/

/-- The metric record built by `_calculate_performance_metrics` when at
least one trade was executed.  `profit_factor` is `none` for the float
infinity returned when there is no losing trade.  The code's Sharpe ratio
is `mean(returns)/std(returns)` (0 when the deviation is 0); the standard
deviation is an irrational square root, so the embedding carries the mean
and the population variance of the period returns, from which the code's
value is `sharpe_mean / √sharpe_var`. -/
structure PerfMetrics where
  total_trades : Nat
  winning_trades : Nat
  losing_trades : Nat
  win_rate : ℚ
  total_return : ℚ
  profit_factor : Option ℚ
  sharpe_mean : ℚ
  sharpe_var : ℚ
  max_drawdown : ℚ
  avg_profit : ℚ
  max_profit : ℚ
  max_loss : ℚ
  initial_capital : ℚ
  final_equity : ℚ
  deriving DecidableEq

/-- Maximum of a non-empty list (Python `max`); 0 for the empty list, which
the source never reaches. -/
def listMax : List ℚ → ℚ
  | [] => 0
  | x :: t => t.foldl max x

/-- Minimum of a non-empty list (Python `min`); 0 for the empty list, which
the source never reaches. -/
def listMin : List ℚ → ℚ
  | [] => 0
  | x :: t => t.foldl min x

/-- Population variance of a list (`np.std` squared); 0 on the empty list. -/
def listVarPop (l : List ℚ) : ℚ :=
  listMean (l.map (fun x => (x - listMean l) ^ 2))

/-- The period returns of the equity curve:
`ret_i = (equity_i − equity_{i−1}) / equity_{i−1}`. -/
def periodReturns (equities : List ℚ) : List ℚ :=
  List.zipWith (fun prev cur => (cur - prev) / prev) equities equities.tail

/-- The running-peak maximum drawdown loop of
`_calculate_performance_metrics` (peak starts at the first equity value;
the source indexes `equity_values[0]`, so the empty case, unreachable
there, is modelled as 0). -/
def maxDrawdownOf (equity_values : List ℚ) : ℚ :=
  match equity_values with
  | [] => 0
  | v0 :: _ =>
    (equity_values.foldl
      (fun acc value =>
        let peak := if value > acc.1 then value else acc.1
        let drawdown := (peak - value) / peak
        (peak, if drawdown > acc.2 then drawdown else acc.2))
      (v0, 0)).2

/-- `BacktestEngine._calculate_performance_metrics`: the explicit
`{'error': 'Aucun trade exécuté'}` result on an empty trade list, else the
metric record computed from the trades and the equity curve. -/
def calculate_performance_metrics (initial_capital : ℚ) (trades : List Trade)
    (equity_curve : List EquityPoint) : Except String PerfMetrics :=
  match trades with
  | [] => Except.error "Aucun trade exécuté"
  | _ =>
    let profits := trades.map (fun t => t.profit)
    let final_equity := (equity_curve.getLastD { timestamp := 0, equity := 0, capital := 0 }).equity
    let winning := profits.filter (fun p => 0 < p)
    let gross_profit := winning.sum
    let gross_loss := |(profits.filter (fun p => p < 0)).sum|
    let returns := periodReturns (equity_curve.map (fun p => p.equity))
    Except.ok
      { total_trades := trades.length,
        winning_trades := winning.length,
        losing_trades := profits.length - winning.length,
        win_rate := (winning.length : ℚ) / (profits.length : ℚ),
        total_return := (final_equity - initial_capital) / initial_capital,
        profit_factor := if 0 < gross_loss then some (gross_profit / gross_loss) else none,
        sharpe_mean := listMean returns,
        sharpe_var := listVarPop returns,
        max_drawdown := maxDrawdownOf (equity_curve.map (fun p => p.equity)),
        avg_profit := listMean profits,
        max_profit := listMax profits,
        max_loss := listMin profits,
        initial_capital := initial_capital,
        final_equity := final_equity }

/-! ### Signal aggregator (`src/strategies/strategy_manager.py`) -/

/-- One step of the grouping loop of
`StrategyManager._filter_and_prioritize_signals`: route a signal to the
group of its symbol, creating the group at the end on first sight of the
symbol (Python dict insertion order). -/
def addToGroups (gs : List (String × List Signal)) (s : Signal) :
    List (String × List Signal) :=
  match gs with
  | [] => [(s.symbol, [s])]
  | (k, g) :: t =>
    if k = s.symbol then (k, g ++ [s]) :: t else (k, g) :: addToGroups t s

/-- The `signals_by_symbol` dict: signals grouped by symbol, groups in
order of first appearance, each group in input order. -/
def groupBySymbol (signals : List Signal) : List (String × List Signal) :=
  signals.foldl addToGroups []

/-- `StrategyManager._signals_are_coherent`: a group is coherent when all
its signals carry the same side (`len(set(sides)) == 1`; groups of at most
one signal are coherent). -/
def signals_are_coherent (signals : List Signal) : Bool :=
  match signals with
  | [] => true
  | s :: t => t.all (fun x => x.side = s.side)

/-- Stable insertion of a signal into a confidence-descending list: the new
signal goes before the first entry whose confidence does not exceed it. -/
def sortInsertDesc (s : Signal) : List Signal → List Signal
  | [] => [s]
  | t :: ts =>
    if t.confidence ≤ s.confidence then s :: t :: ts else t :: sortInsertDesc s ts

/-- `symbol_signals.sort(key=lambda x: x['confidence'], reverse=True)`:
Python's sort is stable, so equal-confidence signals keep input order; a
stable insertion sort realises the same ordering. -/
def sortByConfidenceDesc : List Signal → List Signal
  | [] => []
  | s :: ts => sortInsertDesc s (sortByConfidenceDesc ts)

/-- The per-group body of the selection loop of
`_filter_and_prioritize_signals`: an incoherent group is discarded, a
coherent group contributes the head of its stable confidence-descending
sort (`symbol_signals[0]` after the sort). -/
def bestOfGroup (kg : String × List Signal) : Option Signal :=
  if signals_are_coherent kg.2 then (sortByConfidenceDesc kg.2).head? else none

/-- `StrategyManager._filter_and_prioritize_signals`: group by symbol,
discard incoherent groups, keep the highest-confidence signal of each
coherent group. -/
def filter_and_prioritize_signals (signals : List Signal) : List Signal :=
  (groupBySymbol signals).filterMap bestOfGroup

/-- The first signal of maximal confidence in a list: the element the
stable descending sort puts first. -/
def firstMaxSignal : List Signal → Option Signal
  | [] => none
  | s :: ts =>
    match firstMaxSignal ts with
    | none => some s
    | some m => if m.confidence ≤ s.confidence then some s else some m

/-! ### Indicator calculator (`src/strategies/base_strategy.py`)

`BaseStrategy.calculate_indicators` builds pandas columns; a column value
that pandas leaves as NaN (not enough history for a rolling window) is
modelled as `none`.  `ewm(span=s).mean()` uses pandas defaults
(`adjust=True`, `min_periods=0`): it is defined from the very first row. -/

/-- `close.diff()`: NaN on the first row, consecutive differences after. -/
def diffs (l : List ℚ) : List (Option ℚ) :=
  match l with
  | [] => []
  | x :: t => none :: List.zipWith (fun a b => some (b - a)) (x :: t) t

/-- `delta.where(delta > 0, 0)`: the positive moves; the first row's NaN
compares false and becomes 0. -/
def gainsOf (l : List ℚ) : List ℚ :=
  (diffs l).map (fun d =>
    match d with
    | some x => if 0 < x then x else 0
    | none => 0)

/-- `(-delta.where(delta < 0, 0))`: the magnitudes of the negative moves;
the first row's NaN compares false and becomes 0. -/
def lossesOf (l : List ℚ) : List ℚ :=
  (diffs l).map (fun d =>
    match d with
    | some x => if x < 0 then -x else 0
    | none => 0)

/-- The trailing window of length `w` ending at index `i`. -/
def windowAt (w : Nat) (l : List ℚ) (i : Nat) : List ℚ :=
  (l.take (i + 1)).drop (i + 1 - w)

/-- `series.rolling(window=w).mean()`: NaN (`none`) until `w` observations
exist, then the mean of the trailing window. -/
def rollingMean (w : Nat) (l : List ℚ) : List (Option ℚ) :=
  (List.range l.length).map
    (fun i => if w ≤ i + 1 then some (listMean (windowAt w l i)) else none)

/-- Sample variance (denominator `n − 1`) of a window, the square of
`series.rolling(w).std()`. -/
def sampleVar (l : List ℚ) : ℚ :=
  (l.map (fun x => (x - listMean l) ^ 2)).sum / ((l.length : ℚ) - 1)

/-- `series.rolling(window=w).std()`, carried as its square: NaN (`none`)
until `w` observations exist, then the sample variance of the trailing
window.  The bands combine this with the middle band; the square root the
source takes is irrational, and no claim reads a band's numeric value, so
the embedding keeps the variance (definedness, which the claims do read,
is identical). -/
def rollingVarSample (w : Nat) (l : List ℚ) : List (Option ℚ) :=
  (List.range l.length).map
    (fun i => if w ≤ i + 1 then some (sampleVar (windowAt w l i)) else none)

/-- The running weighted sums of `ewm(...).mean()` with `adjust=True`:
`y_i = num_i / den_i` with `num_i = (1−α)·num_{i−1} + x_i` and
`den_i = (1−α)·den_{i−1} + 1`. -/
def ewmMeanAux (alpha : ℚ) : List ℚ → ℚ → ℚ → List ℚ
  | [], _, _ => []
  | x :: t, num, den =>
    let num2 := (1 - alpha) * num + x
    let den2 := (1 - alpha) * den + 1
    (num2 / den2) :: ewmMeanAux alpha t num2 den2

/-- `series.ewm(span=s).mean()` with pandas defaults: defined on every row,
with smoothing factor `α = 2/(span+1)`. -/
def ewmMean (span : ℚ) (l : List ℚ) : List ℚ :=
  ewmMeanAux (2 / (span + 1)) l 0 0

/-- `rs = gain/loss; rsi = 100 − 100/(1+rs)` under float semantics: NaN in
(`none`) gives NaN out; `gain/0` with a positive gain is `+∞`, giving
RSI 100; `0/0` is NaN. -/
def rsiOf (gain loss : Option ℚ) : Option ℚ :=
  match gain, loss with
  | some g, some l =>
    if l = 0 then (if g = 0 then none else some 100)
    else some (100 - 100 / (1 + g / l))
  | _, _ => none

/-- Combine two possibly-NaN values; NaN is contagious as in float
arithmetic. -/
def omap2 (f : ℚ → ℚ → ℚ) : Option ℚ → Option ℚ → Option ℚ
  | some a, some b => some (f a b)
  | _, _ => none

/-- The indicator columns `BaseStrategy.calculate_indicators` adds.  The
ewm-based columns (`macd*`, `ema_*`) hold no NaN but are wrapped in
`Option` so that definedness is uniformly expressible; `bb_upper` and
`bb_lower` combine the middle band with the variance surrogate of the
rolling standard deviation (see `rollingVarSample`). -/
structure IndicatorFrame where
  rsi : List (Option ℚ)
  macd : List (Option ℚ)
  macd_signal : List (Option ℚ)
  macd_histogram : List (Option ℚ)
  bb_middle : List (Option ℚ)
  bb_upper : List (Option ℚ)
  bb_lower : List (Option ℚ)
  sma_20 : List (Option ℚ)
  sma_50 : List (Option ℚ)
  ema_12 : List (Option ℚ)
  ema_26 : List (Option ℚ)
  volume_sma : List (Option ℚ)
  deriving DecidableEq

/-- `BaseStrategy.calculate_indicators` over a bar list. -/
def calculate_indicators (bars : List Bar) : IndicatorFrame :=
  let close := bars.map (fun b => b.close)
  let volume := bars.map (fun b => b.volume)
  let gain := rollingMean 14 (gainsOf close)
  let loss := rollingMean 14 (lossesOf close)
  let exp1 := ewmMean 12 close
  let exp2 := ewmMean 26 close
  let macd := List.zipWith (fun a b => a - b) exp1 exp2
  let macd_signal := ewmMean 9 macd
  let macd_histogram := List.zipWith (fun a b => a - b) macd macd_signal
  let bb_middle := rollingMean 20 close
  let bb_std := rollingVarSample 20 close
  { rsi := List.zipWith rsiOf gain loss,
    macd := macd.map some,
    macd_signal := macd_signal.map some,
    macd_histogram := macd_histogram.map some,
    bb_middle := bb_middle,
    bb_upper := List.zipWith (omap2 (fun m s => m + s * 2)) bb_middle bb_std,
    bb_lower := List.zipWith (omap2 (fun m s => m - s * 2)) bb_middle bb_std,
    sma_20 := rollingMean 20 close,
    sma_50 := rollingMean 50 close,
    ema_12 := exp1.map some,
    ema_26 := exp2.map some,
    volume_sma := rollingMean 20 volume }

/-! ### Paper portfolio (`src/utils/portfolio.py`) -/

/-- An open position of the paper portfolio (its dict also records a `side`
tag, always `'long'`). -/
structure PPosition where
  quantity : ℚ
  avg_price : ℚ
  side : String
  entry_time : Nat
  deriving DecidableEq

/-- The trade record `_place_paper_order` appends to `trade_history`. -/
structure PTrade where
  timestamp : Nat
  symbol : String
  side : String
  quantity : ℚ
  price : ℚ
  amount : ℚ
  profit : ℚ
  deriving DecidableEq

/-- The persistent paper-portfolio state: cash balance, positions and trade
history. -/
structure PState where
  balance : ℚ
  positions : List (String × PPosition)
  trade_history : List PTrade
  deriving DecidableEq

/-- The outcome dict of `_place_paper_order`: either the explicit rejection
`{'success': False, 'error': ...}` or the filled-order record. -/
inductive PaperOrderResult where
  | rejected (error : String)
  | filled (order_id : String) (symbol : String) (side : String)
      (quantity : ℚ) (price : ℚ) (profit : ℚ)
  deriving DecidableEq

/-- `PortfolioManager._get_current_price`: the hard-coded simulation price
table with default 100. -/
def get_current_price (symbol : String) : ℚ :=
  if symbol = "BTCUSDT" then 45000
  else if symbol = "ETHUSDT" then 3000
  else if symbol = "ADAUSDT" then 1/2
  else if symbol = "DOTUSDT" then 8
  else if symbol = "LINKUSDT" then 15
  else 100

/-- `PortfolioManager._place_paper_order`.  `price or self._get_current_price(symbol)`
falls back on both `None` and `0` (Python falsiness); `now` stands for
`datetime.now()`.  A buy whose cost exceeds the balance and a sell with no
open position return the explicit rejection with the state untouched; any
side other than `'buy'` takes the sell branch, as in the source. -/
def place_paper_order (now : Nat) (st : PState) (symbol : String) (side : String)
    (amount : ℚ) (price : Option ℚ) : PState × PaperOrderResult :=
  let current_price :=
    match price with
    | some p => if p = 0 then get_current_price symbol else p
    | none => get_current_price symbol
  if side = "buy" then
    let cost := amount
    let quantity := cost / current_price
    if st.balance < cost then (st, PaperOrderResult.rejected "Solde insuffisant")
    else
      let positions2 :=
        match lookupA symbol st.positions with
        | some pos =>
          let new_qty := pos.quantity + quantity
          let new_avg_price :=
            (pos.quantity * pos.avg_price + quantity * current_price) / new_qty
          updateFirst symbol
            { pos with quantity := new_qty, avg_price := new_avg_price } st.positions
        | none =>
          st.positions ++
            [(symbol, { quantity := quantity, avg_price := current_price,
                        side := "long", entry_time := now })]
      let trade_history2 := st.trade_history ++
        [{ timestamp := now, symbol := symbol, side := side, quantity := quantity,
           price := current_price, amount := amount, profit := 0 }]
      ({ balance := st.balance - cost, positions := positions2,
         trade_history := trade_history2 },
       PaperOrderResult.filled ("paper_" ++ toString trade_history2.length)
         symbol side quantity current_price 0)
  else
    match lookupA symbol st.positions with
    | none => (st, PaperOrderResult.rejected "Aucune position à vendre")
    | some pos =>
      let sell_quantity := min (amount / current_price) pos.quantity
      let proceeds := sell_quantity * current_price
      let profit := (current_price - pos.avg_price) * sell_quantity
      let remaining := pos.quantity - sell_quantity
      let positions2 :=
        if remaining ≤ 1/1000 then eraseFirst symbol st.positions
        else updateFirst symbol { pos with quantity := remaining } st.positions
      let trade_history2 := st.trade_history ++
        [{ timestamp := now, symbol := symbol, side := side, quantity := sell_quantity,
           price := current_price, amount := amount, profit := profit }]
      ({ balance := st.balance + proceeds, positions := positions2,
         trade_history := trade_history2 },
       PaperOrderResult.filled ("paper_" ++ toString trade_history2.length)
         symbol side sell_quantity current_price profit)

/-! ## Theorems -/

/-- C7: Kelly sizing at win rate 0.6, average win 100, average loss 50
computes fraction 0.4, clamps it to 0.25 and returns exactly a quarter of
the balance. -/
theorem kelly_clamp_quarter_balance (trade_history : List StratTrade)
    (strategy_name : String) (risk_per_trade account_balance : ℚ)
    (hbal : 0 < account_balance)
    (hstats : get_strategy_stats trade_history strategy_name = (3/5, 100, 50)) :
    kelly_position_size trade_history risk_per_trade strategy_name account_balance
      = account_balance * (1/4) := by
  unfold kelly_position_size
  rw [hstats]
  norm_num

/-- Witness for `kelly_clamp_quarter_balance`: a 3-win/2-loss history with
profits +100/−50 realises the stats, and sizing on a 1000 balance returns
250. -/
theorem kelly_clamp_quarter_balance_witness :
    (0:ℚ) < 1000 ∧
    get_strategy_stats
      [⟨"rsi", 100⟩, ⟨"rsi", 100⟩, ⟨"rsi", 100⟩, ⟨"rsi", -50⟩, ⟨"rsi", -50⟩] "rsi"
      = (3/5, 100, 50) ∧
    kelly_position_size
      [⟨"rsi", 100⟩, ⟨"rsi", 100⟩, ⟨"rsi", 100⟩, ⟨"rsi", -50⟩, ⟨"rsi", -50⟩]
      (2/100) "rsi" 1000 = 1000 * (1/4) :=
  ⟨by norm_num, by simp [get_strategy_stats, listMean]; norm_num,
    kelly_clamp_quarter_balance _ "rsi" (2/100) 1000 (by norm_num)
      (by simp [get_strategy_stats, listMean]; norm_num)⟩

/-- C3 counterexample: with an empty trade history the stats default to
`(0.5, 1, 1)`, the zero-win-rate/zero-loss fallback does not fire, the
Kelly fraction is 0 and the call returns 0 — not the percentage size
`balance × 0.02 = 2`. -/
theorem kelly_no_history_returns_zero_not_percentage :
    kelly_position_size [] (2/100) "rsi" 100 = 0 ∧
    percentage_position_size (2/100) 100 = 2 ∧
    kelly_position_size [] (2/100) "rsi" 100 ≠ percentage_position_size (2/100) 100 := by
  refine ⟨?_, ?_, ?_⟩
  · simp [kelly_position_size, get_strategy_stats]
    norm_num
  · simp [percentage_position_size]
    norm_num
  · simp [kelly_position_size, get_strategy_stats, percentage_position_size]
    norm_num

/-- C3 amended: Kelly sizing computes `f = (b·p − q)/b` from the strategy's
recorded stats, clamps it to `[0, 0.25]` and returns `f × balance`, and
falls back to percentage sizing exactly when the computed win rate or
average loss is zero; with no trade history the stats default to
`(0.5, 1, 1)`, the fallback does not fire, and the call returns 0. -/
theorem kelly_sizing_spec (trade_history : List StratTrade) (strategy_name : String)
    (risk_per_trade account_balance : ℚ) (p w l : ℚ)
    (hstats : get_strategy_stats trade_history strategy_name = (p, w, l)) :
    (p ≠ 0 → l ≠ 0 →
      kelly_position_size trade_history risk_per_trade strategy_name account_balance
        = account_balance * max 0 (min (1/4) ((w / l * p - (1 - p)) / (w / l)))) ∧
    ((p = 0 ∨ l = 0) →
      kelly_position_size trade_history risk_per_trade strategy_name account_balance
        = percentage_position_size risk_per_trade account_balance) ∧
    (trade_history.filter (fun t => t.strategy = strategy_name) = [] →
      kelly_position_size trade_history risk_per_trade strategy_name account_balance
        = 0) := by
  refine ⟨fun hp hl => ?_, fun h => ?_, fun hempty => ?_⟩
  · unfold kelly_position_size
    rw [hstats]
    simp only
    rw [if_neg (by push_neg; exact ⟨hp, hl⟩)]
  · unfold kelly_position_size
    rw [hstats]
    simp only
    rw [if_pos h]
  · have hdefault : get_strategy_stats trade_history strategy_name = (1/2, 1, 1) := by
      unfold get_strategy_stats
      rw [hempty]
    unfold kelly_position_size
    rw [hdefault]
    norm_num

/-- Witness for `kelly_sizing_spec`: the no-history default path returns 0;
an all-loss history (win rate 0) takes the percentage fallback. -/
theorem kelly_sizing_spec_witness :
    get_strategy_stats [] "rsi" = (1/2, 1, 1) ∧
    kelly_position_size [] (2/100) "rsi" 200
      = 200 * max 0 (min (1/4) ((1 / 1 * (1/2) - (1 - 1/2)) / (1 / 1))) ∧
    kelly_position_size [] (2/100) "rsi" 200 = 0 ∧
    get_strategy_stats [⟨"macd", -5⟩] "macd" = (0, 1, 5) ∧
    kelly_position_size [⟨"macd", -5⟩] (2/100) "macd" 200
      = percentage_position_size (2/100) 200 :=
  ⟨by simp [get_strategy_stats],
    (kelly_sizing_spec [] "rsi" (2/100) 200 (1/2) 1 1 (by simp [get_strategy_stats])).1
      (by norm_num) (by norm_num),
    (kelly_sizing_spec [] "rsi" (2/100) 200 (1/2) 1 1 (by simp [get_strategy_stats])).2.2
      (by simp),
    by simp [get_strategy_stats, listMean],
    (kelly_sizing_spec [⟨"macd", -5⟩] "macd" (2/100) 200 0 1 5
      (by simp [get_strategy_stats, listMean])).2.1 (Or.inl rfl)⟩

/-- C6: on a backtest run with zero executed trades the metric computation
returns the explicit error result `'Aucun trade exécuté'` (a total
function, so nothing is raised), and on any non-empty trade list it returns
a metric record — so the no-trades outcome is distinguishable and no
metrics are fabricated from an empty list. -/
theorem perf_metrics_no_trades (initial_capital : ℚ)
    (equity_curve : List EquityPoint) :
    calculate_performance_metrics initial_capital [] equity_curve
      = Except.error "Aucun trade exécuté" ∧
    ∀ t ts, ∃ m, calculate_performance_metrics initial_capital (t :: ts) equity_curve
      = Except.ok m := by
  exact ⟨rfl, fun t ts => ⟨_, rfl⟩⟩

/-- C9: a paper buy whose cost exceeds the balance, and a paper sell on a
symbol with no open position, both return the explicit rejection result and
leave the balance, the positions and the trade history exactly unchanged. -/
theorem paper_order_rejection_no_mutation (now : Nat) (st : PState)
    (symbol : String) (amount : ℚ) (price : Option ℚ) :
    (st.balance < amount →
      place_paper_order now st symbol "buy" amount price
        = (st, PaperOrderResult.rejected "Solde insuffisant")) ∧
    (lookupA symbol st.positions = none →
      place_paper_order now st symbol "sell" amount price
        = (st, PaperOrderResult.rejected "Aucune position à vendre")) := by
  constructor
  · intro h
    unfold place_paper_order
    rw [if_pos rfl, if_pos h]
  · intro h
    unfold place_paper_order
    rw [if_neg (by decide)]
    rw [h]

/-- Witness for `paper_order_rejection_no_mutation`: a 100-balance empty
portfolio rejects a 150 buy and any sell. -/
theorem paper_order_rejection_no_mutation_witness :
    ((100:ℚ) < 150) ∧
    place_paper_order 0 { balance := 100, positions := [], trade_history := [] }
      "BTCUSDT" "buy" 150 none
      = ({ balance := 100, positions := [], trade_history := [] },
         PaperOrderResult.rejected "Solde insuffisant") ∧
    lookupA "BTCUSDT"
      (({ balance := 100, positions := [], trade_history := [] } : PState)).positions
      = none ∧
    place_paper_order 0 { balance := 100, positions := [], trade_history := [] }
      "BTCUSDT" "sell" 150 none
      = ({ balance := 100, positions := [], trade_history := [] },
         PaperOrderResult.rejected "Aucune position à vendre") :=
  ⟨by norm_num,
    (paper_order_rejection_no_mutation 0 _ "BTCUSDT" 150 none).1 (by norm_num),
    rfl,
    (paper_order_rejection_no_mutation 0 _ "BTCUSDT" 150 none).2 rfl⟩

/-! ### Ledger accounting lemmas -/

theorem positionsValue_cons (x : String × Position) (t : List (String × Position)) (c : ℚ) :
    positionsValue (x :: t) c = x.2.quantity * c + positionsValue t c := by
  simp [positionsValue]

theorem positionsValue_append_single (l : List (String × Position))
    (x : String × Position) (c : ℚ) :
    positionsValue (l ++ [x]) c = positionsValue l c + x.2.quantity * c := by
  simp [positionsValue]

theorem positionsValue_updateFirst (k : String) (p2 : Position)
    (l : List (String × Position)) (pos : Position) (c : ℚ)
    (h : lookupA k l = some pos) :
    positionsValue (updateFirst k p2 l) c
      = positionsValue l c - pos.quantity * c + p2.quantity * c := by
  induction l with
  | nil => simp [lookupA] at h
  | cons x t ih =>
    obtain ⟨k2, v2⟩ := x
    by_cases hk : k2 = k
    · rw [lookupA, if_pos hk] at h
      obtain rfl : v2 = pos := Option.some_injective _ h
      rw [updateFirst, if_pos hk, positionsValue_cons, positionsValue_cons]
      ring
    · rw [lookupA, if_neg hk] at h
      rw [updateFirst, if_neg hk, positionsValue_cons, positionsValue_cons, ih h]
      ring

theorem positionsValue_eraseFirst (k : String)
    (l : List (String × Position)) (pos : Position) (c : ℚ)
    (h : lookupA k l = some pos) :
    positionsValue (eraseFirst k l) c = positionsValue l c - pos.quantity * c := by
  induction l with
  | nil => simp [lookupA] at h
  | cons x t ih =>
    obtain ⟨k2, v2⟩ := x
    by_cases hk : k2 = k
    · rw [lookupA, if_pos hk] at h
      obtain rfl : v2 = pos := Option.some_injective _ h
      rw [eraseFirst, if_pos hk, positionsValue_cons]
      ring
    · rw [lookupA, if_neg hk] at h
      rw [eraseFirst, if_neg hk, positionsValue_cons, positionsValue_cons, ih h]
      ring

theorem lookupA_eq_none_of_not_mem {α : Type} (k : String) (l : List (String × α))
    (h : k ∉ l.map Prod.fst) : lookupA k l = none := by
  induction l with
  | nil => rfl
  | cons x t ih =>
    rw [lookupA]
    rw [List.map_cons, List.mem_cons] at h
    push_neg at h
    rw [if_neg (fun he => h.1 he.symm)]
    exact ih h.2

theorem lookupA_eraseFirst_self {α : Type} (k : String) (l : List (String × α))
    (hnd : (l.map Prod.fst).Nodup) : lookupA k (eraseFirst k l) = none := by
  induction l with
  | nil => rfl
  | cons x t ih =>
    obtain ⟨k2, v2⟩ := x
    rw [List.map_cons, List.nodup_cons] at hnd
    by_cases hk : k2 = k
    · rw [eraseFirst, if_pos hk]
      exact lookupA_eq_none_of_not_mem k t (hk ▸ hnd.1)
    · rw [eraseFirst, if_neg hk, lookupA, if_neg hk]
      exact ih hnd.2

/-- C1: a sell fill at a price above the average entry price that sells the
whole held quantity (the engine's 2%-of-cash sizing covers it) appends
exactly one trade record for the symbol, with profit
`(fill − avg) × quantity` which is positive, credits cash with
`quantity × fill`, and removes the position entirely (the remaining
quantity 0 is under the dust threshold). -/
theorem full_sell_appends_one_trade_and_removes_position
    (s : BState) (symbol strategy : String) (confidence : ℚ) (current_bar : Bar)
    (pos : Position)
    (hnodup : (s.positions.map Prod.fst).Nodup)
    (hlook : lookupA symbol s.positions = some pos)
    (hq : 0 < pos.quantity)
    (hgain : pos.avg_price < current_bar.close)
    (hfull : pos.quantity ≤ s.capital * (2/100) / current_bar.close) :
    (execute_backtest_trade ⟨strategy, symbol, "sell", confidence⟩ current_bar s).trades
      = s.trades ++
        [{ timestamp := current_bar.timestamp, symbol := symbol, side := "sell",
           quantity := pos.quantity, price := current_bar.close,
           profit := (current_bar.close - pos.avg_price) * pos.quantity,
           strategy := strategy }] ∧
    0 < (current_bar.close - pos.avg_price) * pos.quantity ∧
    (execute_backtest_trade ⟨strategy, symbol, "sell", confidence⟩ current_bar s).capital
      = s.capital + pos.quantity * current_bar.close ∧
    lookupA symbol
      (execute_backtest_trade ⟨strategy, symbol, "sell", confidence⟩ current_bar s).positions
      = none := by
  have hmin : min (s.capital * (2/100) / current_bar.close) pos.quantity = pos.quantity :=
    min_eq_right hfull
  simp only [execute_backtest_trade,
    if_neg (show ¬("sell" : String) = "buy" by decide), eq_self_iff_true, if_true, hlook]
  simp only [hmin]
  rw [if_pos (by rw [sub_self]; norm_num)]
  refine ⟨by trivial, mul_pos (by linarith) hq, by ring, ?_⟩
  exact lookupA_eraseFirst_self symbol s.positions hnodup

/-- Witness for `full_sell_appends_one_trade_and_removes_position`:
capital 10000, one position of 50 units at average price 1, sold at close
2 (the 2% sizing allows 100 units). -/
theorem full_sell_appends_one_trade_and_removes_position_witness :
    ((([("BTCUSDT", ({ quantity := 50, avg_price := 1, entry_time := 0 } : Position))]).map
        Prod.fst).Nodup ∧
      lookupA "BTCUSDT" [("BTCUSDT", ({ quantity := 50, avg_price := 1, entry_time := 0 } : Position))]
        = some { quantity := 50, avg_price := 1, entry_time := 0 } ∧
      (0:ℚ) < 50 ∧ (1:ℚ) < 2 ∧ (50:ℚ) ≤ 10000 * (2/100) / 2) ∧
    ((execute_backtest_trade ⟨"rsi", "BTCUSDT", "sell", 1⟩
        { timestamp := 7, op := 2, high := 2, low := 2, close := 2, volume := 0 }
        { capital := 10000,
          positions := [("BTCUSDT", { quantity := 50, avg_price := 1, entry_time := 0 })],
          trades := [] }).trades
      = [] ++
        [{ timestamp := 7, symbol := "BTCUSDT", side := "sell", quantity := 50,
           price := 2, profit := (2 - 1) * 50, strategy := "rsi" }] ∧
      (0:ℚ) < (2 - 1) * 50 ∧
      (execute_backtest_trade ⟨"rsi", "BTCUSDT", "sell", 1⟩
        { timestamp := 7, op := 2, high := 2, low := 2, close := 2, volume := 0 }
        { capital := 10000,
          positions := [("BTCUSDT", { quantity := 50, avg_price := 1, entry_time := 0 })],
          trades := [] }).capital = 10000 + 50 * 2 ∧
      lookupA "BTCUSDT"
        (execute_backtest_trade ⟨"rsi", "BTCUSDT", "sell", 1⟩
          { timestamp := 7, op := 2, high := 2, low := 2, close := 2, volume := 0 }
          { capital := 10000,
            positions := [("BTCUSDT", { quantity := 50, avg_price := 1, entry_time := 0 })],
            trades := [] }).positions = none) :=
  ⟨⟨by decide, by simp [lookupA], by norm_num, by norm_num, by norm_num⟩,
    full_sell_appends_one_trade_and_removes_position
      { capital := 10000,
        positions := [("BTCUSDT", { quantity := 50, avg_price := 1, entry_time := 0 })],
        trades := [] }
      "BTCUSDT" "rsi" 1
      { timestamp := 7, op := 2, high := 2, low := 2, close := 2, volume := 0 }
      { quantity := 50, avg_price := 1, entry_time := 0 }
      (by decide) (by simp [lookupA]) (by norm_num) (by norm_num) (by norm_num)⟩

/-- C10 counterexample: selling from a position of 2.0005 units at close 1
with capital 100 (2% sizing sells 2 units) leaves a 0.0005 residual, which
the dust rule deletes; the deleted residual's value makes the
mark-to-market equity drop across the fill, so equity is not preserved. -/
theorem equity_not_preserved_on_dust_delete :
    calculate_current_equity
      (execute_backtest_trade ⟨"rsi", "BTCUSDT", "sell", 1⟩
        { timestamp := 0, op := 1, high := 1, low := 1, close := 1, volume := 0 }
        { capital := 100,
          positions := [("BTCUSDT", { quantity := 2 + 1/2000, avg_price := 1, entry_time := 0 })],
          trades := [] })
      { timestamp := 0, op := 1, high := 1, low := 1, close := 1, volume := 0 }
      ≠ calculate_current_equity
        { capital := 100,
          positions := [("BTCUSDT", { quantity := 2 + 1/2000, avg_price := 1, entry_time := 0 })],
          trades := [] }
        { timestamp := 0, op := 1, high := 1, low := 1, close := 1, volume := 0 } := by
  simp only [execute_backtest_trade, lookupA, calculate_current_equity, positionsValue,
    eraseFirst, if_neg (show ¬("sell" : String) = "buy" by decide)]
  norm_num [min_def]

/-- C10 amended: a buy fill always preserves mark-to-market equity at the
bar's close, and a sell fill preserves it except when it strands a positive
residual at or under the 0.001 dust threshold (which the engine deletes,
losing that residual's value): equity is preserved whenever the remaining
quantity is exactly zero or above the threshold. -/
theorem fill_preserves_equity_except_dust (s : BState) (signal : Signal)
    (current_bar : Bar) :
    (signal.side = "buy" →
      calculate_current_equity (execute_backtest_trade signal current_bar s) current_bar
        = calculate_current_equity s current_bar) ∧
    (signal.side = "sell" →
      (∀ pos, lookupA signal.symbol s.positions = some pos →
        pos.quantity - min (s.capital * (2/100) / current_bar.close) pos.quantity = 0 ∨
        1/1000 <
          pos.quantity - min (s.capital * (2/100) / current_bar.close) pos.quantity) →
      calculate_current_equity (execute_backtest_trade signal current_bar s) current_bar
        = calculate_current_equity s current_bar) := by
  constructor
  · intro hside
    simp only [execute_backtest_trade, hside, eq_self_iff_true, if_true]
    by_cases hc : s.capital * (2/100) / current_bar.close * current_bar.close ≤ s.capital
    · rw [if_pos hc]
      cases hl : lookupA signal.symbol s.positions with
      | none =>
        simp only [hl, calculate_current_equity, positionsValue_append_single]
        ring
      | some pos =>
        simp only [hl, calculate_current_equity]
        rw [positionsValue_updateFirst signal.symbol _ s.positions pos _ hl]
        ring
    · rw [if_neg hc]
  · intro hside hdust
    simp only [execute_backtest_trade, hside,
      if_neg (show ¬("sell" : String) = "buy" by decide), eq_self_iff_true, if_true]
    cases hl : lookupA signal.symbol s.positions with
    | none => simp only [hl]
    | some pos =>
      simp only [hl]
      rcases hdust pos hl with hzero | hbig
      · rw [if_pos (by rw [hzero]; norm_num)]
        simp only [calculate_current_equity]
        rw [positionsValue_eraseFirst signal.symbol s.positions pos _ hl]
        have hmin : min (s.capital * (2/100) / current_bar.close) pos.quantity
            = pos.quantity := (sub_eq_zero.mp hzero).symm
        rw [hmin]
        ring
      · rw [if_neg (by linarith)]
        simp only [calculate_current_equity]
        rw [positionsValue_updateFirst signal.symbol _ s.positions pos _ hl]
        ring

/-- Witness for `fill_preserves_equity_except_dust`: a buy and a non-dust
sell on a 3-unit position with capital 100 at close 2 both preserve
equity. -/
theorem fill_preserves_equity_except_dust_witness :
    calculate_current_equity
      (execute_backtest_trade ⟨"rsi", "AAA", "buy", 1⟩
        { timestamp := 0, op := 2, high := 2, low := 2, close := 2, volume := 0 }
        { capital := 100,
          positions := [("AAA", { quantity := 3, avg_price := 1, entry_time := 0 })],
          trades := [] })
      { timestamp := 0, op := 2, high := 2, low := 2, close := 2, volume := 0 }
      = calculate_current_equity
        { capital := 100,
          positions := [("AAA", { quantity := 3, avg_price := 1, entry_time := 0 })],
          trades := [] }
        { timestamp := 0, op := 2, high := 2, low := 2, close := 2, volume := 0 } ∧
    calculate_current_equity
      (execute_backtest_trade ⟨"rsi", "AAA", "sell", 1⟩
        { timestamp := 0, op := 2, high := 2, low := 2, close := 2, volume := 0 }
        { capital := 100,
          positions := [("AAA", { quantity := 3, avg_price := 1, entry_time := 0 })],
          trades := [] })
      { timestamp := 0, op := 2, high := 2, low := 2, close := 2, volume := 0 }
      = calculate_current_equity
        { capital := 100,
          positions := [("AAA", { quantity := 3, avg_price := 1, entry_time := 0 })],
          trades := [] }
        { timestamp := 0, op := 2, high := 2, low := 2, close := 2, volume := 0 } :=
  ⟨(fill_preserves_equity_except_dust _ _ _).1 rfl,
    (fill_preserves_equity_except_dust _ _ _).2 rfl
      (by
        intro pos h
        simp only [lookupA, if_pos rfl] at h
        obtain rfl := Option.some_injective _ h
        right
        norm_num [min_def])⟩

/-! ### Backtest loop structure -/

theorem backtestStep_fst (sigFn : List Bar → List Signal) (bars : List Bar)
    (st : BState) (c1 c2 : List EquityPoint) (i : Nat) :
    (backtestStep sigFn bars (st, c1) i).1 = (backtestStep sigFn bars (st, c2) i).1 := by
  unfold backtestStep
  by_cases h : (bars.take (i + 1)).length < 50
  · rw [if_pos h, if_pos h]
  · rw [if_neg h, if_neg h]

theorem length_filter_lookback (n : Nat) :
    ((List.range n).filter (fun i => 50 ≤ i + 1)).length = n - min n 49 := by
  induction n with
  | zero => rfl
  | succ n ih =>
    rw [List.range_succ, List.filter_append, List.length_append, ih]
    rcases Nat.lt_or_ge (n + 1) 50 with h | h
    · have hf : List.filter (fun i => 50 ≤ i + 1) [n] = [] := by
        simp
        omega
      rw [hf]
      simp only [List.length_nil]
      omega
    · have hf : List.filter (fun i => 50 ≤ i + 1) [n] = [n] := by
        simp
        omega
      rw [hf]
      simp only [List.length_singleton]
      omega

theorem run_backtest_foldl_spec (sigFn : List Bar → List Signal) (bars : List Bar)
    (initial_capital : ℚ) :
    ∀ k, k ≤ bars.length →
      (List.range k).foldl (backtestStep sigFn bars) (initialBState initial_capital, [])
        = (backtestStateAfter sigFn bars initial_capital k,
           ((List.range k).filter (fun i => 50 ≤ i + 1)).map
             (equityPointAt sigFn bars initial_capital)) := by
  intro k
  induction k with
  | zero =>
    intro _
    simp [backtestStateAfter]
  | succ k ih =>
    intro hk
    have hk2 : k ≤ bars.length := Nat.le_of_succ_le hk
    have htake : (bars.take (k + 1)).length = k + 1 := by
      rw [List.length_take]
      exact Nat.min_eq_left hk
    have hstate : backtestStateAfter sigFn bars initial_capital (k + 1)
        = (backtestStep sigFn bars
            (backtestStateAfter sigFn bars initial_capital k,
             ((List.range k).filter (fun i => 50 ≤ i + 1)).map
               (equityPointAt sigFn bars initial_capital)) k).1 := by
      unfold backtestStateAfter
      rw [List.range_succ, List.foldl_append, List.foldl_cons, List.foldl_nil, ih hk2]
    rw [List.range_succ, List.foldl_append, List.foldl_cons, List.foldl_nil, ih hk2,
      List.filter_append, List.map_append]
    rcases Nat.lt_or_ge (k + 1) 50 with h | h
    · have hskip : ∀ c, backtestStep sigFn bars
          (backtestStateAfter sigFn bars initial_capital k, c) k
          = (backtestStateAfter sigFn bars initial_capital k, c) := by
        intro c
        simp only [backtestStep, htake]
        rw [if_pos h]
      have hf : List.filter (fun i => 50 ≤ i + 1) [k] = [] := by
        simp
        omega
      rw [hskip, hf, hstate, hskip]
      simp
    · have hf : List.filter (fun i => 50 ≤ i + 1) [k] = [k] := by
        simp
        omega
      have hnoskip : ¬ (bars.take (k + 1)).length < 50 := by
        rw [htake]
        omega
      have hs : backtestStateAfter sigFn bars initial_capital (k + 1)
          = (sigFn (bars.take (k + 1))).foldl
              (fun st sg =>
                execute_backtest_trade sg ((bars.take (k + 1)).getLastD defaultBar) st)
              (backtestStateAfter sigFn bars initial_capital k) := by
        rw [hstate]
        simp only [backtestStep]
        rw [if_neg hnoskip]
      rw [hf, List.map_cons, List.map_nil]
      simp only [backtestStep, equityPointAt]
      rw [if_neg hnoskip, hs]

/-- C2 counterexample: a backtest over a single bar records no equity point
at all (the loop `continue`s before the 50-bar lookback without appending
to the equity curve), while the claim demands one point per bar. -/
theorem single_bar_backtest_records_no_equity_point :
    (run_backtest (fun _ => [])
      [{ timestamp := 0, op := 100, high := 100, low := 100, close := 100, volume := 1 }]
      10000).2.length = 0 ∧
    (0 : Nat) ≠ 1 := by
  constructor
  · rfl
  · decide

/-- C2 amended: the equity curve holds exactly one point per simulated bar
from the 50th bar onward (`length − min length 49` points; bars before the
minimum lookback are skipped entirely, recording nothing), and every
recorded point carries `equity = cash + Σ quantity × close` over the open
positions at that bar's close. -/
theorem equity_curve_after_lookback (sigFn : List Bar → List Signal)
    (bars : List Bar) (initial_capital : ℚ) :
    (run_backtest sigFn bars initial_capital).2
      = ((List.range bars.length).filter (fun i => 50 ≤ i + 1)).map
          (equityPointAt sigFn bars initial_capital) ∧
    (run_backtest sigFn bars initial_capital).2.length
      = bars.length - min bars.length 49 ∧
    ∀ i, (equityPointAt sigFn bars initial_capital i).equity
        = (equityPointAt sigFn bars initial_capital i).capital
          + positionsValue
              (backtestStateAfter sigFn bars initial_capital (i + 1)).positions
              ((bars.take (i + 1)).getLastD defaultBar).close := by
  have h := run_backtest_foldl_spec sigFn bars initial_capital bars.length le_rfl
  refine ⟨?_, ?_, ?_⟩
  · unfold run_backtest
    rw [h]
  · unfold run_backtest
    rw [h]
    simp only [List.length_map]
    exact length_filter_lookback bars.length
  · intro i
    rfl

/-! ### Indicator window lemmas -/

theorem diffs_length (l : List ℚ) : (diffs l).length = l.length := by
  cases l with
  | nil => rfl
  | cons x t => simp [diffs]

theorem gainsOf_length (l : List ℚ) : (gainsOf l).length = l.length := by
  simp [gainsOf, diffs_length]

theorem lossesOf_length (l : List ℚ) : (lossesOf l).length = l.length := by
  simp [lossesOf, diffs_length]

theorem rollingMean_length (w : Nat) (l : List ℚ) :
    (rollingMean w l).length = l.length := by
  simp [rollingMean]

theorem rollingMean_short (w : Nat) (l : List ℚ) (h : l.length < w) :
    rollingMean w l = List.replicate l.length none := by
  unfold rollingMean
  rw [List.eq_replicate_iff]
  refine ⟨by simp, ?_⟩
  intro b hb
  obtain ⟨i, hi, rfl⟩ := List.mem_map.mp hb
  rw [List.mem_range] at hi
  rw [if_neg (by omega)]

theorem rollingVarSample_short (w : Nat) (l : List ℚ) (h : l.length < w) :
    rollingVarSample w l = List.replicate l.length none := by
  unfold rollingVarSample
  rw [List.eq_replicate_iff]
  refine ⟨by simp, ?_⟩
  intro b hb
  obtain ⟨i, hi, rfl⟩ := List.mem_map.mp hb
  rw [List.mem_range] at hi
  rw [if_neg (by omega)]

theorem zipWith_replicate_replicate {α β γ : Type} (f : α → β → γ) (m n : Nat)
    (a : α) (b : β) :
    List.zipWith f (List.replicate m a) (List.replicate n b)
      = List.replicate (min m n) (f a b) := by
  induction m generalizing n with
  | zero => simp
  | succ m ih =>
    cases n with
    | zero => simp
    | succ n =>
      rw [List.replicate_succ, List.replicate_succ, List.zipWith_cons_cons, ih,
        Nat.succ_min_succ, List.replicate_succ]

theorem map_some_all_isSome {α : Type} (l : List α) :
    (l.map some).all Option.isSome = true := by
  simp [List.all_eq_true]

theorem rollingMean_getElem (w : Nat) (l : List ℚ) (i : Nat) (hi : i < l.length) :
    (rollingMean w l)[i]?
      = some (if w ≤ i + 1 then some (listMean (windowAt w l i)) else none) := by
  unfold rollingMean
  rw [List.getElem?_map, List.getElem?_range hi]
  rfl

theorem windowAt_all (w : Nat) (l : List ℚ) (hlen : l.length = w) (hw : 1 ≤ w) :
    windowAt w l (w - 1) = l := by
  unfold windowAt
  have h1 : w - 1 + 1 = w := Nat.succ_pred_eq_of_pos hw
  rw [h1, Nat.sub_self, List.drop_zero, ← hlen, List.take_length]

/-- C5 counterexample: on a single-bar series — shorter than every spanned
window — the ewm-based columns are numerically defined on row 0
(`ema_12 = 100`, `macd = 0`), not left as the undefined sentinel the claim
demands for all twelve indicators. -/
theorem short_series_ema_still_defined :
    (calculate_indicators
      [{ timestamp := 0, op := 100, high := 100, low := 100, close := 100, volume := 1 }]).ema_12
      = [some 100] ∧
    (calculate_indicators
      [{ timestamp := 0, op := 100, high := 100, low := 100, close := 100, volume := 1 }]).macd
      = [some 0] ∧
    (calculate_indicators
      [{ timestamp := 0, op := 100, high := 100, low := 100, close := 100, volume := 1 }]).ema_12
      ≠ List.replicate 1 none ∧
    (1 : Nat) < 12 := by
  refine ⟨?_, ?_, ?_, by decide⟩
  · norm_num [calculate_indicators, ewmMean, ewmMeanAux]
  · norm_num [calculate_indicators, ewmMean, ewmMeanAux]
  · norm_num [calculate_indicators, ewmMean, ewmMeanAux]
    simp

/-- C5 amended: every rolling-window indicator is left undefined (`none`)
on every row of a series shorter than its window — RSI below 14 bars,
Bollinger bands, SMA-20 and volume SMA below 20 bars, SMA-50 below 50
bars — but the ewm-based columns (`ema_12`, `ema_26`, `macd`,
`macd_signal`, `macd_histogram`) are numerically defined on every row from
the first bar (pandas `ewm` with `min_periods=0`), contrary to the original
claim's inclusion of them. -/
theorem indicators_undefined_below_window (bars : List Bar) :
    (bars.length < 14 →
      (calculate_indicators bars).rsi = List.replicate bars.length none) ∧
    (bars.length < 20 →
      (calculate_indicators bars).bb_middle = List.replicate bars.length none ∧
      (calculate_indicators bars).bb_upper = List.replicate bars.length none ∧
      (calculate_indicators bars).bb_lower = List.replicate bars.length none ∧
      (calculate_indicators bars).sma_20 = List.replicate bars.length none ∧
      (calculate_indicators bars).volume_sma = List.replicate bars.length none) ∧
    (bars.length < 50 →
      (calculate_indicators bars).sma_50 = List.replicate bars.length none) ∧
    (calculate_indicators bars).ema_12.all Option.isSome = true ∧
    (calculate_indicators bars).ema_26.all Option.isSome = true ∧
    (calculate_indicators bars).macd.all Option.isSome = true ∧
    (calculate_indicators bars).macd_signal.all Option.isSome = true ∧
    (calculate_indicators bars).macd_histogram.all Option.isSome = true := by
  have hcl : (bars.map (fun b => b.close)).length = bars.length := by simp
  have hvl : (bars.map (fun b => b.volume)).length = bars.length := by simp
  refine ⟨?_, ?_, ?_, ?_, ?_, ?_, ?_, ?_⟩
  · intro h
    have hg : rollingMean 14 (gainsOf (bars.map (fun b => b.close)))
        = List.replicate bars.length none := by
      rw [rollingMean_short 14 _ (by rw [gainsOf_length, hcl]; exact h),
        gainsOf_length, hcl]
    have hlo : rollingMean 14 (lossesOf (bars.map (fun b => b.close)))
        = List.replicate bars.length none := by
      rw [rollingMean_short 14 _ (by rw [lossesOf_length, hcl]; exact h),
        lossesOf_length, hcl]
    simp only [calculate_indicators]
    rw [hg, hlo, zipWith_replicate_replicate, min_self]
    rfl
  · intro h
    have hm : rollingMean 20 (bars.map (fun b => b.close))
        = List.replicate bars.length none := by
      rw [rollingMean_short 20 _ (by rw [hcl]; exact h), hcl]
    have hv : rollingVarSample 20 (bars.map (fun b => b.close))
        = List.replicate bars.length none := by
      rw [rollingVarSample_short 20 _ (by rw [hcl]; exact h), hcl]
    have hvol : rollingMean 20 (bars.map (fun b => b.volume))
        = List.replicate bars.length none := by
      rw [rollingMean_short 20 _ (by rw [hvl]; exact h), hvl]
    refine ⟨?_, ?_, ?_, ?_, ?_⟩
    · simp only [calculate_indicators]
      exact hm
    · simp only [calculate_indicators]
      rw [hm, hv, zipWith_replicate_replicate, min_self]
      rfl
    · simp only [calculate_indicators]
      rw [hm, hv, zipWith_replicate_replicate, min_self]
      rfl
    · simp only [calculate_indicators]
      exact hm
    · simp only [calculate_indicators]
      exact hvol
  · intro h
    have h50 : rollingMean 50 (bars.map (fun b => b.close))
        = List.replicate bars.length none := by
      rw [rollingMean_short 50 _ (by rw [hcl]; exact h), hcl]
    simp only [calculate_indicators]
    exact h50
  · simp only [calculate_indicators]
    exact map_some_all_isSome _
  · simp only [calculate_indicators]
    exact map_some_all_isSome _
  · simp only [calculate_indicators]
    exact map_some_all_isSome _
  · simp only [calculate_indicators]
    exact map_some_all_isSome _
  · simp only [calculate_indicators]
    exact map_some_all_isSome _

/-- Witness for `indicators_undefined_below_window`: a single-bar series
has every rolling indicator undefined and every ewm column defined. -/
theorem indicators_undefined_below_window_witness :
    ((1 : Nat) < 14 ∧ (1 : Nat) < 20 ∧ (1 : Nat) < 50) ∧
    (calculate_indicators
        [{ timestamp := 0, op := 100, high := 100, low := 100, close := 100, volume := 1 }]).rsi
      = List.replicate 1 none ∧
    (calculate_indicators
        [{ timestamp := 0, op := 100, high := 100, low := 100, close := 100, volume := 1 }]).bb_upper
      = List.replicate 1 none ∧
    (calculate_indicators
        [{ timestamp := 0, op := 100, high := 100, low := 100, close := 100, volume := 1 }]).sma_50
      = List.replicate 1 none ∧
    (calculate_indicators
        [{ timestamp := 0, op := 100, high := 100, low := 100, close := 100, volume := 1 }]).ema_26.all
        Option.isSome = true :=
  ⟨⟨by decide, by decide, by decide⟩,
    (indicators_undefined_below_window _).1 (by decide),
    ((indicators_undefined_below_window _).2.1 (by decide)).2.1,
    (indicators_undefined_below_window _).2.2.1 (by decide),
    (indicators_undefined_below_window _).2.2.2.2.1⟩

/-! ### RSI edge cases -/

theorem diffs_cons (x : ℚ) (t : List ℚ) :
    diffs (x :: t) = none :: List.zipWith (fun a b => some (b - a)) (x :: t) t := rfl

theorem gainsOf_replicate (n : Nat) (c : ℚ) :
    gainsOf (List.replicate (n + 1) c) = List.replicate (n + 1) (0:ℚ) := by
  unfold gainsOf
  rw [List.replicate_succ, diffs_cons, ← List.replicate_succ, zipWith_replicate_replicate]
  rw [show min (n + 1) n = n by omega, sub_self, List.map_cons, List.map_replicate]
  rw [List.replicate_succ]
  norm_num

theorem lossesOf_replicate (n : Nat) (c : ℚ) :
    lossesOf (List.replicate (n + 1) c) = List.replicate (n + 1) (0:ℚ) := by
  unfold lossesOf
  rw [List.replicate_succ, diffs_cons, ← List.replicate_succ, zipWith_replicate_replicate]
  rw [show min (n + 1) n = n by omega, sub_self, List.map_cons, List.map_replicate]
  rw [List.replicate_succ]
  norm_num

theorem rollingMean_replicate_zero_last :
    (rollingMean 14 (List.replicate 14 (0:ℚ)))[13]? = some (some 0) := by
  rw [rollingMean_getElem 14 _ 13 (by simp), if_pos (by norm_num)]
  rw [show (13:Nat) = 14 - 1 from rfl, windowAt_all 14 _ (by simp) (by norm_num)]
  simp [listMean, List.sum_replicate]

/-- C8 counterexample: on 14 bars at a constant price the 14-bar window has
no losses (rolling loss mean 0), but the rolling gain mean is also 0, so
`rs = 0/0` is NaN and the RSI for that row is undefined — not 100 as the
claim requires whenever the average loss is zero. -/
theorem flat_window_rsi_undefined_not_100 :
    (rollingMean 14 (lossesOf ((List.replicate 14
        ({ timestamp := 0, op := 100, high := 100, low := 100, close := 100,
           volume := 1 } : Bar)).map (fun b => b.close))))[13]? = some (some 0) ∧
    (calculate_indicators (List.replicate 14
        ({ timestamp := 0, op := 100, high := 100, low := 100, close := 100,
           volume := 1 } : Bar))).rsi[13]? = some none ∧
    (calculate_indicators (List.replicate 14
        ({ timestamp := 0, op := 100, high := 100, low := 100, close := 100,
           volume := 1 } : Bar))).rsi[13]? ≠ some (some 100) := by
  have hmap : (List.replicate 14
      ({ timestamp := 0, op := 100, high := 100, low := 100, close := 100,
         volume := 1 } : Bar)).map (fun b => b.close) = List.replicate 14 (100:ℚ) := by
    rw [List.map_replicate]
  have hgains : gainsOf (List.replicate 14 (100:ℚ)) = List.replicate 14 (0:ℚ) := by
    have h := gainsOf_replicate 13 100
    norm_num at h
    exact h
  have hlosses : lossesOf (List.replicate 14 (100:ℚ)) = List.replicate 14 (0:ℚ) := by
    have h := lossesOf_replicate 13 100
    norm_num at h
    exact h
  have hl : (rollingMean 14 (lossesOf (List.replicate 14 (100:ℚ))))[13]?
      = some (some 0) := by
    rw [hlosses]
    exact rollingMean_replicate_zero_last
  have hg : (rollingMean 14 (gainsOf (List.replicate 14 (100:ℚ))))[13]?
      = some (some 0) := by
    rw [hgains]
    exact rollingMean_replicate_zero_last
  have hrsi : (calculate_indicators (List.replicate 14
      ({ timestamp := 0, op := 100, high := 100, low := 100, close := 100,
         volume := 1 } : Bar))).rsi[13]? = some none := by
    simp only [calculate_indicators, hmap]
    rw [List.getElem?_zipWith, hg, hl]
    rfl
  refine ⟨by rw [hmap]; exact hl, hrsi, by rw [hrsi]; simp⟩

/-- C8 amended: whenever the 14-bar rolling loss mean is zero and the
rolling gain mean is defined and positive, the RSI of that row is exactly
100 (the float division `gain/0` is `+∞` and `100 − 100/(1+∞) = 100`); if
the gain mean is zero as well, the RSI is NaN, not 100. -/
theorem rsi_100_when_no_losses (bars : List Bar) (i : Nat) (g : ℚ)
    (hg : (rollingMean 14 (gainsOf (bars.map (fun b => b.close))))[i]?
      = some (some g))
    (hgpos : 0 < g)
    (hl : (rollingMean 14 (lossesOf (bars.map (fun b => b.close))))[i]?
      = some (some 0)) :
    (calculate_indicators bars).rsi[i]? = some (some 100) := by
  simp only [calculate_indicators]
  exact List.getElem?_zipWith_eq_some.mpr
    ⟨some g, some 0, hg, hl, by simp [rsiOf, hgpos.ne']⟩

theorem gainsOf_ramp_example :
    gainsOf ((0:ℚ) :: List.replicate 13 14) = 0 :: 14 :: List.replicate 12 0 := by
  unfold gainsOf
  rw [diffs_cons, show List.replicate 13 (14:ℚ) = 14 :: List.replicate 12 14 from rfl]
  rw [List.zipWith_cons_cons, ← List.replicate_succ, zipWith_replicate_replicate]
  rw [show min (12 + 1) 12 = 12 by omega, sub_self, List.map_cons, List.map_cons,
    List.map_replicate]
  norm_num

theorem lossesOf_ramp_example :
    lossesOf ((0:ℚ) :: List.replicate 13 14) = 0 :: 0 :: List.replicate 12 0 := by
  unfold lossesOf
  rw [diffs_cons, show List.replicate 13 (14:ℚ) = 14 :: List.replicate 12 14 from rfl]
  rw [List.zipWith_cons_cons, ← List.replicate_succ, zipWith_replicate_replicate]
  rw [show min (12 + 1) 12 = 12 by omega, sub_self, List.map_cons, List.map_cons,
    List.map_replicate]
  norm_num

/-- Witness for `rsi_100_when_no_losses`: a 14-bar series that jumps from 0
to 14 and stays flat has rolling gain mean 1 and rolling loss mean 0 at row
13, and its RSI there is 100. -/
theorem rsi_100_when_no_losses_witness :
    (rollingMean 14 (gainsOf
        ((({ timestamp := 0, op := 0, high := 0, low := 0, close := 0, volume := 1 } : Bar) ::
            List.replicate 13
              ({ timestamp := 1, op := 14, high := 14, low := 14, close := 14, volume := 1 } : Bar)).map
          (fun b => b.close))))[13]? = some (some 1) ∧
    (0:ℚ) < 1 ∧
    (rollingMean 14 (lossesOf
        ((({ timestamp := 0, op := 0, high := 0, low := 0, close := 0, volume := 1 } : Bar) ::
            List.replicate 13
              ({ timestamp := 1, op := 14, high := 14, low := 14, close := 14, volume := 1 } : Bar)).map
          (fun b => b.close))))[13]? = some (some 0) ∧
    (calculate_indicators
        (({ timestamp := 0, op := 0, high := 0, low := 0, close := 0, volume := 1 } : Bar) ::
          List.replicate 13
            ({ timestamp := 1, op := 14, high := 14, low := 14, close := 14, volume := 1 } : Bar))).rsi[13]?
      = some (some 100) := by
  have hmap :
      (({ timestamp := 0, op := 0, high := 0, low := 0, close := 0, volume := 1 } : Bar) ::
          List.replicate 13
            ({ timestamp := 1, op := 14, high := 14, low := 14, close := 14, volume := 1 } : Bar)).map
        (fun b => b.close)
      = (0:ℚ) :: List.replicate 13 14 := by
    rw [List.map_cons, List.map_replicate]
  have hg : (rollingMean 14 (gainsOf ((0:ℚ) :: List.replicate 13 14)))[13]?
      = some (some 1) := by
    rw [gainsOf_ramp_example]
    rw [rollingMean_getElem 14 _ 13 (by simp), if_pos (by norm_num)]
    rw [show (13:Nat) = 14 - 1 from rfl, windowAt_all 14 _ (by simp) (by norm_num)]
    norm_num [listMean, List.sum_replicate]
  have hl : (rollingMean 14 (lossesOf ((0:ℚ) :: List.replicate 13 14)))[13]?
      = some (some 0) := by
    rw [lossesOf_ramp_example]
    rw [rollingMean_getElem 14 _ 13 (by simp), if_pos (by norm_num)]
    rw [show (13:Nat) = 14 - 1 from rfl, windowAt_all 14 _ (by simp) (by norm_num)]
    simp [listMean, List.sum_replicate]
  refine ⟨by rw [hmap]; exact hg, by norm_num, by rw [hmap]; exact hl, ?_⟩
  exact rsi_100_when_no_losses _ 13 1 (by rw [hmap]; exact hg) (by norm_num)
    (by rw [hmap]; exact hl)

/-! ### Aggregator lemmas -/

theorem mem_sortInsertDesc (x s : Signal) (l : List Signal) :
    x ∈ sortInsertDesc s l ↔ x = s ∨ x ∈ l := by
  induction l with
  | nil => simp [sortInsertDesc]
  | cons t ts ih =>
    by_cases h : t.confidence ≤ s.confidence
    · rw [sortInsertDesc, if_pos h]
      simp
    · rw [sortInsertDesc, if_neg h]
      simp [ih]
      tauto

theorem mem_sortByConfidenceDesc (x : Signal) (l : List Signal) :
    x ∈ sortByConfidenceDesc l ↔ x ∈ l := by
  induction l with
  | nil => simp [sortByConfidenceDesc]
  | cons s t ih =>
    rw [sortByConfidenceDesc, mem_sortInsertDesc]
    simp [ih]

theorem head?_sortByConfidenceDesc (l : List Signal) :
    (sortByConfidenceDesc l).head? = firstMaxSignal l := by
  induction l with
  | nil => rfl
  | cons s t ih =>
    rw [sortByConfidenceDesc, firstMaxSignal]
    cases hs : sortByConfidenceDesc t with
    | nil =>
      rw [hs] at ih
      rw [← ih]
      rfl
    | cons b u =>
      rw [hs] at ih
      rw [← ih]
      by_cases h : b.confidence ≤ s.confidence
      · rw [sortInsertDesc, if_pos h]
        simp [h]
      · rw [sortInsertDesc, if_neg h]
        simp [h]

theorem firstMaxSignal_none_iff (l : List Signal) :
    firstMaxSignal l = none ↔ l = [] := by
  cases l with
  | nil => simp [firstMaxSignal]
  | cons s t =>
    rw [firstMaxSignal]
    cases firstMaxSignal t with
    | none => simp
    | some m =>
      by_cases h : m.confidence ≤ s.confidence <;> simp [h]

theorem firstMaxSignal_decomp (l : List Signal) (m : Signal)
    (h : firstMaxSignal l = some m) :
    ∃ pre post, l = pre ++ m :: post ∧
      (∀ x ∈ pre, x.confidence < m.confidence) ∧
      (∀ x ∈ post, x.confidence ≤ m.confidence) := by
  induction l generalizing m with
  | nil => simp [firstMaxSignal] at h
  | cons s t ih =>
    rw [firstMaxSignal] at h
    cases ht : firstMaxSignal t with
    | none =>
      simp only [ht] at h
      obtain rfl : s = m := by simpa using h
      obtain rfl : t = [] := (firstMaxSignal_none_iff t).mp ht
      exact ⟨[], [], rfl, by simp, by simp⟩
    | some b =>
      simp only [ht] at h
      by_cases hc : b.confidence ≤ s.confidence
      · rw [if_pos hc] at h
        obtain rfl : s = m := by simpa using h
        obtain ⟨pre, post, hdec, hpre, hpost⟩ := ih b ht
        refine ⟨[], t, rfl, by simp, ?_⟩
        intro x hx
        rw [hdec] at hx
        rcases List.mem_append.mp hx with hx | hx
        · exact le_trans (le_of_lt (hpre x hx)) hc
        · rcases List.mem_cons.mp hx with rfl | hx
          · exact hc
          · exact le_trans (hpost x hx) hc
      · rw [if_neg hc] at h
        obtain rfl : b = m := by simpa using h
        obtain ⟨pre, post, hdec, hpre, hpost⟩ := ih b ht
        refine ⟨s :: pre, post, by rw [hdec]; rfl, ?_, hpost⟩
        intro x hx
        rcases List.mem_cons.mp hx with rfl | hx
        · exact lt_of_not_le hc
        · exact hpre x hx

theorem bestOfGroup_mem (k : String) (g : List Signal) (m : Signal)
    (h : bestOfGroup (k, g) = some m) : m ∈ g := by
  unfold bestOfGroup at h
  by_cases hc : signals_are_coherent g
  · rw [if_pos hc] at h
    have : m ∈ sortByConfidenceDesc g := by
      cases hs : sortByConfidenceDesc g with
      | nil => rw [hs] at h; simp at h
      | cons b u =>
        rw [hs] at h
        obtain rfl : b = m := by simpa using h
        simp
    exact (mem_sortByConfidenceDesc m g).mp this
  · rw [if_neg hc] at h
    simp at h

theorem coherent_false_of_ne_sides (g : List Signal) (a b : Signal)
    (ha : a ∈ g) (hb : b ∈ g) (hne : a.side ≠ b.side) :
    signals_are_coherent g = false := by
  cases hc : signals_are_coherent g
  · rfl
  · exfalso
    cases g with
    | nil => simp at ha
    | cons s t =>
      rw [signals_are_coherent] at hc
      rw [List.all_eq_true] at hc
      have hside : ∀ x ∈ s :: t, x.side = s.side := by
        intro x hx
        rcases List.mem_cons.mp hx with rfl | hx
        · rfl
        · simpa using hc x hx
      exact hne ((hside a ha).trans (hside b hb).symm)

theorem coherent_true_of_all_sides (g : List Signal)
    (h : ∀ a ∈ g, ∀ b ∈ g, a.side = b.side) :
    signals_are_coherent g = true := by
  cases g with
  | nil => rfl
  | cons s t =>
    rw [signals_are_coherent, List.all_eq_true]
    intro x hx
    simpa using h x (List.mem_cons_of_mem s hx) s (List.mem_cons_self s t)

theorem addToGroups_not_mem (gs : List (String × List Signal)) (s : Signal)
    (h : s.symbol ∉ gs.map Prod.fst) :
    addToGroups gs s = gs ++ [(s.symbol, [s])] := by
  induction gs with
  | nil => rfl
  | cons kg t ih =>
    obtain ⟨k, g⟩ := kg
    rw [List.map_cons, List.mem_cons] at h
    push_neg at h
    rw [addToGroups, if_neg (fun he => h.1 he.symm), ih h.2]
    rfl

theorem map_if_fst_untouched (t : List (String × List Signal)) (y : String)
    (s : Signal) (h : ∀ kg ∈ t, kg.1 ≠ y) :
    t.map (fun kg => if kg.1 = y then (kg.1, kg.2 ++ [s]) else kg) = t := by
  induction t with
  | nil => rfl
  | cons kg t ih =>
    rw [List.map_cons, if_neg (h kg (List.mem_cons_self kg t)), ih]
    intro kg2 h2
    exact h kg2 (List.mem_cons_of_mem kg h2)

theorem addToGroups_mem (gs : List (String × List Signal)) (s : Signal)
    (hnd : (gs.map Prod.fst).Nodup) (h : s.symbol ∈ gs.map Prod.fst) :
    addToGroups gs s
      = gs.map (fun kg => if kg.1 = s.symbol then (kg.1, kg.2 ++ [s]) else kg) := by
  induction gs with
  | nil => simp at h
  | cons kg t ih =>
    obtain ⟨k, g⟩ := kg
    rw [List.map_cons, List.nodup_cons] at hnd
    by_cases hk : k = s.symbol
    · rw [addToGroups, if_pos hk, List.map_cons, if_pos hk]
      have : ∀ kg2 ∈ t, kg2.1 ≠ s.symbol := by
        intro kg2 h2 he
        apply hnd.1
        rw [hk, ← he]
        exact List.mem_map.mpr ⟨kg2, h2, rfl⟩
      rw [map_if_fst_untouched t s.symbol s this]
    · rw [List.map_cons, List.mem_cons] at h
      rcases h with h | h
      · exact absurd h.symm hk
      · rw [addToGroups, if_neg hk, List.map_cons, if_neg hk, ih hnd.2 h]

theorem keys_map_if (gs : List (String × List Signal)) (s : Signal) :
    ((gs.map (fun kg => if kg.1 = s.symbol then (kg.1, kg.2 ++ [s]) else kg)).map
      Prod.fst) = gs.map Prod.fst := by
  rw [List.map_map]
  apply List.map_congr_left
  intro kg _
  by_cases hk : kg.1 = s.symbol
  · rw [Function.comp_apply, if_pos hk]
  · rw [Function.comp_apply, if_neg hk]

theorem addToGroups_inv (gs : List (String × List Signal)) (s : Signal)
    (p : List Signal)
    (h1 : (gs.map Prod.fst).Nodup)
    (h2 : ∀ kg ∈ gs, kg.2 = p.filter (fun x => x.symbol = kg.1) ∧ kg.2 ≠ [])
    (h3 : ∀ sym, sym ∉ gs.map Prod.fst → p.filter (fun x => x.symbol = sym) = []) :
    ((addToGroups gs s).map Prod.fst).Nodup ∧
    (∀ kg ∈ addToGroups gs s,
      kg.2 = (p ++ [s]).filter (fun x => x.symbol = kg.1) ∧ kg.2 ≠ []) ∧
    (∀ sym, sym ∉ (addToGroups gs s).map Prod.fst →
      (p ++ [s]).filter (fun x => x.symbol = sym) = []) := by
  by_cases hmem : s.symbol ∈ gs.map Prod.fst
  · rw [addToGroups_mem gs s h1 hmem]
    refine ⟨by rw [keys_map_if]; exact h1, ?_, ?_⟩
    · intro kg hkg
      obtain ⟨kg0, hkg0, rfl⟩ := List.mem_map.mp hkg
      obtain ⟨hfilter, hne⟩ := h2 kg0 hkg0
      by_cases he : kg0.1 = s.symbol
      · rw [if_pos he]
        refine ⟨?_, by simp⟩
        show kg0.2 ++ [s] = (p ++ [s]).filter (fun x => x.symbol = kg0.1)
        rw [List.filter_append, ← hfilter]
        congr 1
        simp [he]
      · rw [if_neg he]
        refine ⟨?_, hne⟩
        rw [List.filter_append, ← hfilter]
        have hns : s.symbol ≠ kg0.1 := fun hee => he hee.symm
        have : [s].filter (fun x => x.symbol = kg0.1) = [] := by simp [hns]
        rw [this, List.append_nil]
    · intro sym hsym
      rw [keys_map_if] at hsym
      rw [List.filter_append, h3 sym hsym]
      have hne : s.symbol ≠ sym := fun he => hsym (he ▸ hmem)
      simp [hne]
  · rw [addToGroups_not_mem gs s hmem]
    refine ⟨?_, ?_, ?_⟩
    · rw [List.map_append]
      rw [List.nodup_append]
      refine ⟨h1, by simp, ?_⟩
      intro a ha hb
      simp at hb
      exact hmem (hb ▸ ha)
    · intro kg hkg
      rcases List.mem_append.mp hkg with h | h
      · obtain ⟨hfilter, hne⟩ := h2 kg h
        have hk : kg.1 ≠ s.symbol :=
          fun he => hmem (he ▸ List.mem_map_of_mem Prod.fst h)
        refine ⟨?_, hne⟩
        rw [List.filter_append, ← hfilter]
        have hns : s.symbol ≠ kg.1 := fun hee => hk hee.symm
        have : [s].filter (fun x => x.symbol = kg.1) = [] := by simp [hns]
        rw [this, List.append_nil]
      · have hkg2 : kg = (s.symbol, [s]) := by simpa using h
        subst hkg2
        refine ⟨?_, by simp⟩
        show [s] = (p ++ [s]).filter (fun x => x.symbol = s.symbol)
        rw [List.filter_append, h3 s.symbol hmem]
        simp
    · intro sym hsym
      rw [List.map_append] at hsym
      rw [List.mem_append] at hsym
      push_neg at hsym
      have hs1 : sym ∉ gs.map Prod.fst := hsym.1
      have hs2 : s.symbol ≠ sym := by
        intro he
        exact hsym.2 (by simp [he])
      rw [List.filter_append, h3 sym hs1]
      simp [hs2]

theorem groupBySymbol_fold_inv (l : List Signal) :
    ∀ (p : List Signal) (gs : List (String × List Signal)),
      (gs.map Prod.fst).Nodup →
      (∀ kg ∈ gs, kg.2 = p.filter (fun x => x.symbol = kg.1) ∧ kg.2 ≠ []) →
      (∀ sym, sym ∉ gs.map Prod.fst → p.filter (fun x => x.symbol = sym) = []) →
      (((l.foldl addToGroups gs).map Prod.fst).Nodup ∧
       (∀ kg ∈ l.foldl addToGroups gs,
         kg.2 = (p ++ l).filter (fun x => x.symbol = kg.1) ∧ kg.2 ≠ []) ∧
       (∀ sym, sym ∉ (l.foldl addToGroups gs).map Prod.fst →
         (p ++ l).filter (fun x => x.symbol = sym) = [])) := by
  induction l with
  | nil =>
    intro p gs h1 h2 h3
    rw [List.foldl_nil, List.append_nil]
    exact ⟨h1, h2, h3⟩
  | cons s t ih =>
    intro p gs h1 h2 h3
    obtain ⟨g1, g2, g3⟩ := addToGroups_inv gs s p h1 h2 h3
    have h := ih (p ++ [s]) (addToGroups gs s) g1 g2 g3
    rw [List.append_assoc, List.singleton_append] at h
    rw [List.foldl_cons]
    exact h

theorem groupBySymbol_spec (l : List Signal) :
    ((groupBySymbol l).map Prod.fst).Nodup ∧
    (∀ kg ∈ groupBySymbol l,
      kg.2 = l.filter (fun x => x.symbol = kg.1) ∧ kg.2 ≠ []) ∧
    (∀ sym, sym ∉ (groupBySymbol l).map Prod.fst →
      l.filter (fun x => x.symbol = sym) = []) := by
  have h := groupBySymbol_fold_inv l [] [] (by simp) (by simp) (by simp)
  rw [List.nil_append] at h
  exact h

theorem filterMap_best_absent (gs : List (String × List Signal)) (sym : String)
    (hsymbols : ∀ kg ∈ gs, ∀ x ∈ kg.2, x.symbol = kg.1)
    (habs : sym ∉ gs.map Prod.fst) :
    (gs.filterMap bestOfGroup).filter (fun x => x.symbol = sym) = [] := by
  induction gs with
  | nil => rfl
  | cons kg t ih =>
    rw [List.map_cons, List.mem_cons] at habs
    push_neg at habs
    have ht := ih (fun kg2 h2 x hx => hsymbols kg2 (List.mem_cons_of_mem kg h2) x hx)
      habs.2
    cases hb : bestOfGroup kg with
    | none => rw [List.filterMap_cons_none hb]; exact ht
    | some m =>
      rw [List.filterMap_cons_some hb]
      have hm : m.symbol = kg.1 :=
        hsymbols kg (List.mem_cons_self kg t) m (bestOfGroup_mem kg.1 kg.2 m hb)
      have : ¬ m.symbol = sym := by
        rw [hm]
        exact fun he => habs.1 he.symm
      rw [List.filter_cons_of_neg (by simpa using this)]
      exact ht

theorem filterMap_best_present (gs : List (String × List Signal)) (sym : String)
    (g : List Signal)
    (hsymbols : ∀ kg ∈ gs, ∀ x ∈ kg.2, x.symbol = kg.1)
    (hnd : (gs.map Prod.fst).Nodup)
    (hmem : (sym, g) ∈ gs) :
    (gs.filterMap bestOfGroup).filter (fun x => x.symbol = sym)
      = (bestOfGroup (sym, g)).toList := by
  induction gs with
  | nil => simp at hmem
  | cons kg t ih =>
    rw [List.map_cons, List.nodup_cons] at hnd
    rcases List.mem_cons.mp hmem with he | hmem2
    · have hkfst : kg.1 = sym := by rw [← he]
      have habs : sym ∉ t.map Prod.fst := hkfst ▸ hnd.1
      have ht := filterMap_best_absent t sym
        (fun kg2 h2 x hx => hsymbols kg2 (List.mem_cons_of_mem kg h2) x hx) habs
      cases hb : bestOfGroup kg with
      | none =>
        rw [List.filterMap_cons_none hb, ht, he, hb]
        rfl
      | some m =>
        rw [List.filterMap_cons_some hb]
        have hm : m.symbol = sym :=
          hkfst ▸ hsymbols kg (List.mem_cons_self kg t) m (bestOfGroup_mem kg.1 kg.2 m hb)
        rw [List.filter_cons_of_pos (by simpa using hm), ht, he, hb]
        rfl
    · have hsym_t : sym ∈ t.map Prod.fst := List.mem_map.mpr ⟨(sym, g), hmem2, rfl⟩
      have hk : kg.1 ≠ sym := fun he2 => hnd.1 (he2 ▸ hsym_t)
      have ht := ih (fun kg2 h2 x hx => hsymbols kg2 (List.mem_cons_of_mem kg h2) x hx)
        hnd.2 hmem2
      cases hb : bestOfGroup kg with
      | none => rw [List.filterMap_cons_none hb]; exact ht
      | some m =>
        rw [List.filterMap_cons_some hb]
        have hm : m.symbol = kg.1 :=
          hsymbols kg (List.mem_cons_self kg t) m (bestOfGroup_mem kg.1 kg.2 m hb)
        have : ¬ m.symbol = sym := by
          rw [hm]
          exact hk
        rw [List.filter_cons_of_neg (by simpa using this)]
        exact ht

/-- C4: the aggregator emits at most one signal per symbol; a symbol whose
input signals carry both sides 'buy' and 'sell' gets no output at all; and
when all of a symbol's input signals agree on side, the output for that
symbol is exactly the first input signal of maximal confidence (stable
tie-breaking by input order).  Determinism in the input list holds because
`filter_and_prioritize_signals` is a pure function of it. -/
theorem aggregator_one_coherent_max_per_symbol (signals : List Signal) (sym : String) :
    ((filter_and_prioritize_signals signals).filter
        (fun x => x.symbol = sym)).length ≤ 1 ∧
    ((∃ a ∈ signals, a.symbol = sym ∧ a.side = "buy") →
      (∃ b ∈ signals, b.symbol = sym ∧ b.side = "sell") →
      (filter_and_prioritize_signals signals).filter (fun x => x.symbol = sym) = []) ∧
    ((∃ a ∈ signals, a.symbol = sym) →
      (∀ a ∈ signals, a.symbol = sym → ∀ b ∈ signals, b.symbol = sym →
        a.side = b.side) →
      ∃ m pre post,
        signals.filter (fun x => x.symbol = sym) = pre ++ m :: post ∧
        (∀ x ∈ pre, x.confidence < m.confidence) ∧
        (∀ x ∈ post, x.confidence ≤ m.confidence) ∧
        (filter_and_prioritize_signals signals).filter (fun x => x.symbol = sym)
          = [m]) := by
  obtain ⟨hnd, hcontent, habsent⟩ := groupBySymbol_spec signals
  have hsymbols : ∀ kg ∈ groupBySymbol signals, ∀ x ∈ kg.2, x.symbol = kg.1 := by
    intro kg hkg x hx
    rw [(hcontent kg hkg).1] at hx
    simpa using (List.mem_filter.mp hx).2
  by_cases hmem : sym ∈ (groupBySymbol signals).map Prod.fst
  · obtain ⟨kg, hkg, hk1⟩ := List.mem_map.mp hmem
    have hkg2 : (sym, kg.2) ∈ groupBySymbol signals := by
      rw [← hk1]
      exact hkg
    have hout := filterMap_best_present (groupBySymbol signals) sym kg.2
      hsymbols hnd hkg2
    have hg_eq : kg.2 = signals.filter (fun x => x.symbol = sym) := by
      rw [(hcontent kg hkg).1, hk1]
    refine ⟨?_, ?_, ?_⟩
    · rw [filter_and_prioritize_signals, hout]
      cases bestOfGroup (sym, kg.2) <;> simp [Option.toList]
    · rintro ⟨a, ha, hasym, haside⟩ ⟨b, hb, hbsym, hbside⟩
      have hag : a ∈ kg.2 := by
        rw [hg_eq]
        exact List.mem_filter.mpr ⟨ha, by simpa using hasym⟩
      have hbg : b ∈ kg.2 := by
        rw [hg_eq]
        exact List.mem_filter.mpr ⟨hb, by simpa using hbsym⟩
      have hincoh : signals_are_coherent kg.2 = false :=
        coherent_false_of_ne_sides kg.2 a b hag hbg
          (by rw [haside, hbside]; decide)
      rw [filter_and_prioritize_signals, hout, bestOfGroup]
      rw [hincoh]
      rfl
    · rintro ⟨a, ha, hasym⟩ hall
      have hcoh : signals_are_coherent kg.2 = true := by
        apply coherent_true_of_all_sides
        intro x hx y hy
        have hx2 := hg_eq ▸ hx
        have hy2 := hg_eq ▸ hy
        exact hall x (List.mem_filter.mp hx2).1 (by simpa using (List.mem_filter.mp hx2).2)
          y (List.mem_filter.mp hy2).1 (by simpa using (List.mem_filter.mp hy2).2)
      cases hm : firstMaxSignal kg.2 with
      | none =>
        exact absurd ((firstMaxSignal_none_iff kg.2).mp hm) (hcontent kg hkg).2
      | some m =>
        obtain ⟨pre, post, hdec, hpre, hpost⟩ := firstMaxSignal_decomp kg.2 m hm
        refine ⟨m, pre, post, by rw [← hg_eq]; exact hdec, hpre, hpost, ?_⟩
        rw [filter_and_prioritize_signals, hout, bestOfGroup]
        rw [hcoh, if_pos rfl, head?_sortByConfidenceDesc, hm]
        rfl
  · have hf : signals.filter (fun x => x.symbol = sym) = [] := habsent sym hmem
    have hout := filterMap_best_absent (groupBySymbol signals) sym hsymbols hmem
    refine ⟨?_, fun _ _ => by rw [filter_and_prioritize_signals]; exact hout, ?_⟩
    · rw [filter_and_prioritize_signals, hout]
      simp
    · rintro ⟨a, ha, hasym⟩ _
      exfalso
      have : a ∈ signals.filter (fun x => x.symbol = sym) :=
        List.mem_filter.mpr ⟨ha, by simpa using hasym⟩
      rw [hf] at this
      simp at this

/-- Witness for `aggregator_one_coherent_max_per_symbol`: with a
buy/sell conflict on AAA and two agreeing buys on BBB, the aggregator
emits nothing for AAA and the higher-confidence BBB signal. -/
theorem aggregator_one_coherent_max_per_symbol_witness :
    ((filter_and_prioritize_signals
        [⟨"s1", "AAA", "buy", 3/5⟩, ⟨"s2", "AAA", "sell", 9/10⟩,
         ⟨"s3", "BBB", "buy", 1/2⟩, ⟨"s4", "BBB", "buy", 4/5⟩]).filter
      (fun x => x.symbol = "AAA")).length ≤ 1 ∧
    (filter_and_prioritize_signals
        [⟨"s1", "AAA", "buy", 3/5⟩, ⟨"s2", "AAA", "sell", 9/10⟩,
         ⟨"s3", "BBB", "buy", 1/2⟩, ⟨"s4", "BBB", "buy", 4/5⟩]).filter
      (fun x => x.symbol = "AAA") = [] ∧
    (filter_and_prioritize_signals
        [⟨"s1", "AAA", "buy", 3/5⟩, ⟨"s2", "AAA", "sell", 9/10⟩,
         ⟨"s3", "BBB", "buy", 1/2⟩, ⟨"s4", "BBB", "buy", 4/5⟩]).filter
      (fun x => x.symbol = "BBB") ≠ [] := by
  refine
    ⟨(aggregator_one_coherent_max_per_symbol
        [⟨"s1", "AAA", "buy", 3/5⟩, ⟨"s2", "AAA", "sell", 9/10⟩,
         ⟨"s3", "BBB", "buy", 1/2⟩, ⟨"s4", "BBB", "buy", 4/5⟩] "AAA").1, ?_, ?_⟩
  · exact (aggregator_one_coherent_max_per_symbol
        [⟨"s1", "AAA", "buy", 3/5⟩, ⟨"s2", "AAA", "sell", 9/10⟩,
         ⟨"s3", "BBB", "buy", 1/2⟩, ⟨"s4", "BBB", "buy", 4/5⟩] "AAA").2.1
      ⟨⟨"s1", "AAA", "buy", 3/5⟩, by simp, rfl, rfl⟩
      ⟨⟨"s2", "AAA", "sell", 9/10⟩, by simp, rfl, rfl⟩
  · obtain ⟨m, pre, post, hdec, hpre, hpost, hout⟩ :=
      (aggregator_one_coherent_max_per_symbol
        [⟨"s1", "AAA", "buy", 3/5⟩, ⟨"s2", "AAA", "sell", 9/10⟩,
         ⟨"s3", "BBB", "buy", 1/2⟩, ⟨"s4", "BBB", "buy", 4/5⟩] "BBB").2.2
        ⟨⟨"s3", "BBB", "buy", 1/2⟩, by simp, rfl⟩
        (by
          intro x hx hxsym y hy hysym
          fin_cases hx <;> fin_cases hy <;> simp_all)
    rw [hout]
    simp

end Fortune
